import Mathlib

/-!
Verification of the commit-classification heuristic of
`plugins/git-commit/skills/git-commit/scripts/analyze-diff.py` (class
`DiffAnalyzer`): scope inference, commit-type inference and scoring,
description generation, breaking-change detection, and the composed
`classify` contract described in the design spec.

All string processing is embedded over `List Char` (converted at the
boundary via `String.data`) with structural recursion, so that every
definition evaluates on concrete inputs inside the kernel.
-/

namespace DiffAnalyzer

/-- A changed file as produced by `git diff --staged --name-status`:
`status` is the raw status letter string (the analyzer only ever compares
it against "A" and "D"). -/
structure ChangedFile where
  path : String
  status : String
deriving DecidableEq, Repr

/-- `charsLeadWith pre cs` is true when `pre` is an initial run of `cs`
(the character-list version of Python `str.startswith`). -/
def charsLeadWith : List Char → List Char → Bool
  | [], _ => true
  | p :: pre, cs =>
    match cs with
    | [] => false
    | c :: rest => p == c && charsLeadWith pre rest

/-- Python's substring test `needle in hay`, on character lists. -/
def charsContain (needle : List Char) : List Char → Bool
  | [] => needle.isEmpty
  | c :: cs => charsLeadWith needle (c :: cs) || charsContain needle cs

/-- Python `needle in hay` for strings. -/
def strContains (hay needle : String) : Bool :=
  charsContain needle.data hay.data

/-- Python `hay.startswith(pre)` for strings. -/
def strStartsWith (hay pre : String) : Bool :=
  charsLeadWith pre.data hay.data

/-- `suf` is a final run of `cs`. -/
def charsEndWith (suf cs : List Char) : Bool :=
  charsLeadWith suf.reverse cs.reverse

/-- Python `hay.endswith(suf)` for strings. -/
def strEndsWith (hay suf : String) : Bool :=
  charsEndWith suf.data hay.data

/-- Python `str.lower` (the analyzer's paths and diffs are ASCII, where
`Char.toLower` agrees with CPython). -/
def lowerStr (s : String) : String :=
  String.mk (s.data.map Char.toLower)

/-- Python `text.split(sep)` for a one-character separator: `""` splits to
`[""]`, and a trailing separator yields a trailing `""`. -/
def splitCharAux (sep : Char) : List Char → List (List Char)
  | [] => [[]]
  | c :: cs =>
    let rest := splitCharAux sep cs
    if c == sep then [] :: rest
    else
      match rest with
      | [] => [[c]]
      | l :: ls => (c :: l) :: ls

/-- Python `text.split("\n")`. -/
def splitNl (s : String) : List String :=
  (splitCharAux '\n' s.data).map String.mk

/-- `DiffAnalyzer.TYPE_KEYWORDS`, in source (dict insertion) order. -/
def TYPE_KEYWORDS : List (String × List String) := [
  ("feat", ["add", "create", "implement", "introduce", "new",
            "class", "function", "feature", "endpoint", "component"]),
  ("fix", ["fix", "bug", "issue", "error", "crash", "correct",
           "resolve", "patch", "repair"]),
  ("refactor", ["refactor", "restructure", "reorganize", "extract",
                "rename", "move", "cleanup", "simplify"]),
  ("perf", ["optimize", "performance", "faster", "speed", "cache",
            "index", "query", "efficient"]),
  ("style", ["format", "lint", "prettier", "whitespace", "indent"]),
  ("test", ["test", "spec", "coverage", "mock", "fixture"]),
  ("docs", ["readme", "documentation", "comment", "docstring"]),
  ("build", ["package.json", "requirements.txt", "dependencies",
             "dependency", "upgrade", "bump"])]

/-- `DiffAnalyzer.SCOPE_PATTERNS`, in source (dict insertion) order. Each
regex is replaced by the equivalent set of substring tests: paths contain no
newline, so e.g. `re.search(".*/(auth|login|oauth)", path)` holds iff the
path contains "/auth", "/login" or "/oauth"; `".*/database|migrations"`
alternates the whole patterns; `".*/tests?/"` needs "/test/" or "/tests/";
`"Dockerfile|docker-compose"` keeps its capital D from the source even
though it is only ever matched against lowercased paths. -/
def SCOPE_PATTERNS : List (List String × String) := [
  (["/auth", "/login", "/oauth"], "auth"),
  (["/api", "/endpoints", "/routes"], "api"),
  (["/database", "migrations"], "database"),
  (["/test/", "/tests/"], "test"),
  (["/ui", "/components", "/views"], "ui"),
  (["/doc/", "/docs/"], "docs"),
  (["/config", "/settings"], "config"),
  ([".github/"], "ci"),
  (["Dockerfile", "docker-compose"], "docker"),
  (["/deploy", "/infra", "/terraform"], "ops")]

/-- First matching scope pattern for one (already lowercased) path: the
inner loop of `DiffAnalyzer.infer_scope` (first pattern wins, then `break`). -/
def scope_of_path (path : String) : Option String :=
  (SCOPE_PATTERNS.find? (fun ps => ps.1.any (fun sub => strContains path sub))).map
    (fun ps => ps.2)

/-- `pathlib.PurePosixPath(p).parts` for the relative paths git produces:
split on '/', dropping empty and "." components. -/
def path_parts (p : String) : List String :=
  ((splitCharAux '/' p.data).filter
    (fun seg => !seg.isEmpty && !(seg == ['.']))).map String.mk

/-- Python `scopes.count(x)`. -/
def count_of (xs : List String) (x : String) : Nat :=
  xs.countP (fun y => y.data == x.data)

/-- `max(set(scopes), key=scopes.count)` from `infer_scope`. CPython iterates
the set in hash order, which is unspecified when two scopes tie on count;
this embedding picks the first-seen scope among those of maximal count. No
theorem below depends on the tie case. -/
def most_common : List String → Option String
  | [] => none
  | x :: xs =>
    some ((x :: xs).foldl
      (fun best y => if count_of (x :: xs) best < count_of (x :: xs) y then y else best) x)

/-- The fallback loop of `infer_scope`: return the first path segment of the
first file whose path has more than one segment and whose head segment is
not generic ("src"/"lib"/"app"), truncated to 20 characters; files whose
head segment is generic are skipped and the loop continues. -/
def first_dir_scope : List ChangedFile → Option String
  | [] => none
  | f :: rest =>
    match path_parts f.path with
    | p0 :: _ :: _ =>
      if ["src", "lib", "app"].any (fun g => g.data == p0.data) then first_dir_scope rest
      else some (String.mk (p0.data.take 20))
    | _ => first_dir_scope rest

/-- `DiffAnalyzer.infer_scope`. -/
def infer_scope (files : List ChangedFile) : Option String :=
  let scopes := files.filterMap (fun f => scope_of_path (lowerStr f.path))
  if scopes.isEmpty then first_dir_scope files
  else most_common scopes

/-- The added lines of the diff: lines starting with '+' but not '+++'. -/
def added_lines (diff : String) : List String :=
  (splitNl diff).filter (fun l => strStartsWith l "+" && !(strStartsWith l "+++"))

/-- `defaultdict(int)` bump: add `n` to `k`'s entry, appending a fresh entry
at the end when `k` is absent (CPython dicts preserve insertion order, which
is what `max` later iterates). -/
def bump (k : String) (n : Nat) : List (String × Nat) → List (String × Nat)
  | [] => [(k, n)]
  | (k', v) :: rest =>
    if k'.data == k.data then (k', v + n) :: rest
    else (k', v) :: bump k n rest

/-- Innermost loop of the scoring: one type, one keyword, all added lines
(`for line in added_lines: if keyword in line.lower(): type_scores[t] += 1`). -/
def score_lines (t kw : String) : List String → List (String × Nat) → List (String × Nat)
  | [], m => m
  | l :: ls, m =>
    score_lines t kw ls (if strContains (lowerStr l) kw then bump t 1 m else m)

/-- One type, all its keywords (`for keyword in keywords: ...`). -/
def score_kws (t : String) : List String → List String → List (String × Nat) →
    List (String × Nat)
  | [], _, m => m
  | kw :: rest, lines, m => score_kws t rest lines (score_lines t kw lines m)

/-- All `(type, keywords)` entries (`for commit_type, keywords in ...items()`). -/
def score_entries : List (String × List String) → List String → List (String × Nat) →
    List (String × Nat)
  | [], _, m => m
  | tk :: rest, lines, m => score_entries rest lines (score_kws tk.1 tk.2 lines m)

/-- The keyword-counting loop of `DiffAnalyzer.infer_type`: for each type,
each keyword, each added line, `type_scores[type] += 1` when the keyword
occurs in the lowercased line (one bump per matching (keyword, line) pair). -/
def keyword_scores (diff : String) : List (String × Nat) :=
  score_entries TYPE_KEYWORDS (added_lines diff) []

/-- `any(f['status'] == 'A' for f in files)`. -/
def has_new_files (files : List ChangedFile) : Bool :=
  files.any (fun f => f.status.data == "A".data)

/-- `any(f['status'] == 'D' for f in files)`. -/
def has_deletions (files : List ChangedFile) : Bool :=
  files.any (fun f => f.status.data == "D".data)

/-- `all('test' in f['path'].lower() for f in files)`. -/
def only_tests (files : List ChangedFile) : Bool :=
  files.all (fun f => strContains (lowerStr f.path) "test")

/-- `all(f['path'].lower().endswith(('.md', '.txt', '.rst')) for f in files)`. -/
def only_docs (files : List ChangedFile) : Bool :=
  files.all (fun f =>
    strEndsWith (lowerStr f.path) ".md" || strEndsWith (lowerStr f.path) ".txt" ||
    strEndsWith (lowerStr f.path) ".rst")

/-- The score map after the two status adjustments of `infer_type`
(+5 to feat when a file has Added status; +2 to refactor when there are
Deleted-status files and no Added-status ones). -/
def adjusted_scores (files : List ChangedFile) (diff : String) : List (String × Nat) :=
  let s1 :=
    if has_new_files files then bump "feat" 5 (keyword_scores diff)
    else keyword_scores diff
  if has_deletions files && !has_new_files files then bump "refactor" 2 s1 else s1

/-- Python `max(items, key=lambda x: x[1])`: the first entry of maximal
value (`max` replaces its running best only on a strictly greater key). -/
def firstMax : List (String × Nat) → Option (String × Nat)
  | [] => none
  | p :: rest =>
    match firstMax rest with
    | none => some p
    | some q => some (if p.2 < q.2 then q else p)

/-- `DiffAnalyzer.infer_type`. -/
def infer_type (files : List ChangedFile) (diff : String) : String × ℚ :=
  if only_tests files then ("test", 9/10)
  else if only_docs files then ("docs", 9/10)
  else
    match firstMax (adjusted_scores files diff) with
    | none => ("chore", 3/10)
    | some ts => (ts.1, min ((ts.2 : ℚ)/10) 1)

/-- `re.search(r"\-.*" + kw, line)` on one line: a '-' anywhere in the line
followed, later in the same line, by `kw` (`.` never matches a newline, so a
match lies within one line; note the '-' is NOT anchored to the line start). -/
def dash_then_aux (kw : List Char) : List Char → Bool
  | [] => false
  | c :: cs => (c == '-' && charsContain kw cs) || dash_then_aux kw cs

/-- The dash indicator over the whole diff; `re.IGNORECASE` is rendered by
lowercasing each line (the keywords are lowercase). -/
def has_dash_indicator (kw : String) (diff : String) : Bool :=
  (splitNl diff).any (fun l => dash_then_aux kw.data (lowerStr l).data)

/-- `DiffAnalyzer.is_breaking_change`: the four `breaking_indicators`
checked in list order, first match wins. -/
def is_breaking_change (diff : String) : Bool × Option String :=
  if has_dash_indicator "public " diff then (true, some "removed public API")
  else if has_dash_indicator "export " diff then (true, some "removed exports")
  else if strContains (lowerStr diff) "breaking change" then (true, some "explicitly marked")
  else if has_dash_indicator "@deprecated" diff then (true, some "removed deprecated feature")
  else (false, none)

/-- Python `\w` (ASCII fragment, as in the analyzer's diffs). -/
def isWordChar (c : Char) : Bool :=
  c.isAlphanum || c == '_'

/-- Longest initial run of word characters (`\w+`, greedy). -/
def word_run : List Char → List Char
  | [] => []
  | c :: cs => if isWordChar c then c :: word_run cs else []

/-- Greedy `.*` backtracking for the pattern `\+.*KW(\w+)`: the LAST position
in the rest of the line where `kw` occurs followed by at least one word
character; returns the captured `\w+` run and the rest of the line after it. -/
def last_kw_capture (kw : List Char) : List Char → Option (List Char × List Char)
  | [] => none
  | c :: cs =>
    match last_kw_capture kw cs with
    | some r => some r
    | none =>
      if charsLeadWith kw (c :: cs) then
        let after := (c :: cs).drop kw.length
        let w := word_run after
        if w.isEmpty then none else some (w, after.drop w.length)
      else none

/-- `re.findall(r"\+.*KW(\w+)", line)` on one line: the match must start at a
'+'; if the greedy search after the first '+' fails it fails after every
later '+' too; after a match, scanning resumes past the captured run. `fuel`
only bounds the recursion: `fuel = length` is enough, because the remainder
returned by `last_kw_capture` is shorter than the scanned list. -/
def line_captures_fuel (kw : List Char) : Nat → List Char → List (List Char)
  | 0, _ => []
  | _, [] => []
  | fuel + 1, c :: cs =>
    if c == '+' then
      match last_kw_capture kw cs with
      | none => []
      | some wr => wr.1 :: line_captures_fuel kw fuel wr.2
    else line_captures_fuel kw fuel cs

/-- `re.findall` of one added-pattern over one line. -/
def line_captures (kw : List Char) (cs : List Char) : List (List Char) :=
  line_captures_fuel kw cs.length cs

/-- `re.findall` over the whole diff: `.` and `\w` never match a newline, so
matches never span lines and the results concatenate in line order. -/
def findall_captures (kw : String) (text : String) : List String :=
  ((splitNl text).map (fun l => (line_captures kw.data l.data).map String.mk)).flatten

/-- The `added_patterns` of `generate_description`: each regex
`\+.*KW (\w+)` is represented by its literal part `"KW "`. -/
def added_patterns : List String := ["def ", "function ", "class ", "const "]

/-- Index of the last '.' of `cs` that is neither first nor last, if any
(CPython `PurePath.stem`: the suffix must be non-empty and the name must not
start with the dot). -/
def stem_cut (cs : List Char) : Option Nat :=
  (List.range cs.length).foldl
    (fun acc i =>
      if cs.getD i ' ' == '.' && decide (0 < i) && decide (i + 1 < cs.length) then some i
      else acc)
    none

/-- Python `PurePosixPath(p).stem`. -/
def path_stem (p : String) : String :=
  let name := ((path_parts p).getLastD "").data
  match stem_cut name with
  | some i => String.mk (name.take i)
  | none => String.mk name

/-- `DiffAnalyzer.generate_description`. -/
def generate_description (files : List ChangedFile) (diff : String)
    (commit_type : String) : String :=
  let entities :=
    (added_patterns.map (fun kw => (findall_captures kw diff).take 3)).flatten
  let dl := lowerStr diff
  if commit_type.data == "feat".data && !entities.isEmpty then
    "add " ++ entities.headD ""
  else if commit_type.data == "fix".data then
    if strContains dl "null" && strContains dl "check" then "prevent null pointer exception"
    else if strContains dl "error" then "fix error handling"
    else "fix bug"
  else if commit_type.data == "refactor".data then
    match entities with
    | e :: _ => "extract " ++ e ++ " logic"
    | [] => "restructure code"
  else if commit_type.data == "perf".data then
    if strContains dl "cache" then "add caching"
    else if strContains dl "index" then "optimize database queries"
    else "improve performance"
  else if commit_type.data == "docs".data then "update documentation"
  else if commit_type.data == "test".data then
    match entities with
    | e :: _ => "add tests for " ++ e
    | [] => "add tests"
  else
    let action := if has_new_files files then "add" else "update"
    match files with
    | [f] => action ++ " " ++ path_stem f.path
    | _ => action ++ " " ++ toString files.length ++ " files"

/-- The only failure of the classification core (spec §7). -/
inductive ClassifyError where
  | NoChangesError
deriving DecidableEq, Repr

/-- The `ClassificationResult` record of spec §3, as assembled by
`DiffAnalyzer.analyze`. -/
structure ClassificationResult where
  commit_type : String
  scope : Option String
  description : String
  confidence : ℚ
  is_breaking : Bool
  breaking_reason : Option String
deriving DecidableEq, Repr

/-- The pure core of `DiffAnalyzer.analyze` as the spec's
`classify(files, diff)`: the no-staged-changes gate of `get_staged_changes`
(`if not files_output:` — an empty `--name-status` output, i.e. an empty
changed-file list) becomes the `NoChangesError` branch, and the four
inference operations compose the result. The gate inspects only the file
list, never the diff text. -/
def classify (files : List ChangedFile) (diff : String) :
    Except ClassifyError ClassificationResult :=
  if files.isEmpty then Except.error ClassifyError.NoChangesError
  else
    let tc := infer_type files diff
    Except.ok {
      commit_type := tc.1
      scope := infer_scope files
      description := generate_description files diff tc.1
      confidence := tc.2
      is_breaking := (is_breaking_change diff).1
      breaking_reason := (is_breaking_change diff).2 }

/-- Value of key `k` in a score map, 0 when absent. -/
def lookupD : List (String × Nat) → String → Nat
  | [], _ => 0
  | p :: rest, k => if p.1.data == k.data then p.2 else lookupD rest k

/-- A type's base score as the source computes it: one unit per
(keyword, added line) pair such that the keyword occurs in the lowercased
line. -/
def pair_score (kws : List String) (lines : List String) : Nat :=
  (kws.map (fun kw => lines.countP (fun l => strContains (lowerStr l) kw))).sum

/-- Written from the SPEC's words, for the refinement check of the scoring
rule: the number of occurrences of `needle` in `hay` (one per start position
at which it occurs). The source instead counts matching (keyword, line)
pairs, at most one per line. -/
def count_occurrences (needle : List Char) : List Char → Nat
  | [] => 0
  | c :: cs =>
    (if charsLeadWith needle (c :: cs) then 1 else 0) + count_occurrences needle cs

/-- Written from the SPEC's words: a type's base score as "the number of
occurrences of that type's keywords within added diff lines". -/
def spec_occurrence_score (kws : List String) (diff : String) : Nat :=
  (kws.map (fun kw =>
    ((added_lines diff).map (fun l => count_occurrences kw.data (lowerStr l).data)).sum)).sum


/-- Spec-side reading of one breaking-change dash indicator, on the raw
diff: some line contains a '-' followed later in the SAME line by `kw`,
case-insensitively (with no requirement that the '-' start the line). -/
def DashIndicator (kw diff : String) : Prop :=
  ∃ line ∈ splitNl diff, ∃ p q r, (lowerStr line).data = p ++ '-' :: (q ++ kw.data ++ r)

/-- Spec-side reading of the explicit marker indicator: the diff contains
"breaking change" case-insensitively, anywhere. -/
def MarkerIndicator (diff : String) : Prop :=
  ∃ p s, (lowerStr diff).data = p ++ "breaking change".data ++ s

end DiffAnalyzer

/-! ### Helper lemmas -/

namespace DiffAnalyzer

theorem str_data_inj {s t : String} (h : s.data = t.data) : s = t := by
  cases s with
  | mk d1 =>
    cases t with
    | mk d2 => exact congrArg String.mk h

theorem firstMax_cons_isSome (a : String × Nat) (rest : List (String × Nat)) :
    ∃ p, firstMax (a :: rest) = some p := by
  simp only [firstMax]
  cases firstMax rest with
  | none => exact ⟨a, rfl⟩
  | some q => exact ⟨if a.2 < q.2 then q else a, rfl⟩

theorem firstMax_spec (l : List (String × Nat)) (p : String × Nat)
    (h : firstMax l = some p) :
    ∃ l1 l2, l = l1 ++ p :: l2 ∧ (∀ q ∈ l1, q.2 < p.2) ∧ (∀ q ∈ l2, q.2 ≤ p.2) := by
  induction l generalizing p with
  | nil => simp [firstMax] at h
  | cons a rest ih =>
    simp only [firstMax] at h
    cases hr : firstMax rest with
    | none =>
      rw [hr] at h
      have hrest : rest = [] := by
        cases rest with
        | nil => rfl
        | cons b bs =>
          obtain ⟨q, hq⟩ := firstMax_cons_isSome b bs
          rw [hq] at hr
          cases hr
      injection h with h
      subst h
      exact ⟨[], [], by simp [hrest], by simp, by simp [hrest]⟩
    | some q =>
      rw [hr] at h
      injection h with h
      obtain ⟨l1, l2, heq, h1, h2⟩ := ih q hr
      by_cases hlt : a.2 < q.2
      · rw [if_pos hlt] at h
        subst h
        exact ⟨a :: l1, l2, by simp [heq], by
          intro r hrm
          rcases List.mem_cons.mp hrm with rfl | hrm
          · exact hlt
          · exact h1 r hrm, h2⟩
      · rw [if_neg hlt] at h
        subst h
        have hq2 : q.2 ≤ a.2 := Nat.le_of_not_lt hlt
        refine ⟨[], rest, by simp, by simp, ?_⟩
        intro r hrm
        rw [heq] at hrm
        rcases List.mem_append.mp hrm with hrm | hrm
        · exact le_trans (le_of_lt (h1 r hrm)) hq2
        · rcases List.mem_cons.mp hrm with rfl | hrm
          · exact hq2
          · exact le_trans (h2 r hrm) hq2

theorem firstMax_mem {l : List (String × Nat)} {p : String × Nat}
    (h : firstMax l = some p) : p ∈ l := by
  obtain ⟨l1, l2, heq, -, -⟩ := firstMax_spec l p h
  rw [heq]
  exact List.mem_append.mpr (Or.inr (List.mem_cons_self _ _))

theorem mem_bump {k : String} {n : Nat} {m : List (String × Nat)} {p : String × Nat}
    (h : p ∈ bump k n m) : p.1 = k ∨ p ∈ m := by
  induction m with
  | nil =>
    simp only [bump, List.mem_singleton] at h
    subst h
    exact Or.inl rfl
  | cons q rest ih =>
    obtain ⟨k', v⟩ := q
    simp only [bump] at h
    by_cases hc : (k'.data == k.data) = true
    · rw [if_pos hc] at h
      rcases List.mem_cons.mp h with rfl | h
      · exact Or.inl (str_data_inj (by simpa using hc))
      · exact Or.inr (List.mem_cons_of_mem _ h)
    · rw [if_neg hc] at h
      rcases List.mem_cons.mp h with rfl | h
      · exact Or.inr (List.mem_cons_self _ _)
      · rcases ih h with h1 | h1
        · exact Or.inl h1
        · exact Or.inr (List.mem_cons_of_mem _ h1)

theorem mem_score_lines {t kw : String} {lines : List String}
    {m : List (String × Nat)} {p : String × Nat}
    (h : p ∈ score_lines t kw lines m) : p.1 = t ∨ p ∈ m := by
  induction lines generalizing m with
  | nil => exact Or.inr h
  | cons l ls ih =>
    simp only [score_lines] at h
    rcases ih (m := if strContains (lowerStr l) kw then bump t 1 m else m) h with h1 | h1
    · exact Or.inl h1
    · by_cases hc : strContains (lowerStr l) kw = true
      · rw [if_pos hc] at h1
        exact mem_bump h1
      · rw [if_neg hc] at h1
        exact Or.inr h1

theorem mem_score_kws {t : String} {kws : List String} {lines : List String}
    {m : List (String × Nat)} {p : String × Nat}
    (h : p ∈ score_kws t kws lines m) : p.1 = t ∨ p ∈ m := by
  induction kws generalizing m with
  | nil => exact Or.inr h
  | cons kw rest ih =>
    simp only [score_kws] at h
    rcases ih (m := score_lines t kw lines m) h with h1 | h1
    · exact Or.inl h1
    · exact mem_score_lines h1

theorem mem_score_entries {entries : List (String × List String)} {lines : List String}
    {m : List (String × Nat)} {p : String × Nat}
    (h : p ∈ score_entries entries lines m) :
    (∃ tk ∈ entries, p.1 = tk.1) ∨ p ∈ m := by
  induction entries generalizing m with
  | nil => exact Or.inr h
  | cons tk rest ih =>
    simp only [score_entries] at h
    rcases ih (m := score_kws tk.1 tk.2 lines m) h with h1 | h1
    · obtain ⟨tk', htk', heq⟩ := h1
      exact Or.inl ⟨tk', List.mem_cons_of_mem _ htk', heq⟩
    · rcases mem_score_kws h1 with h2 | h2
      · exact Or.inl ⟨tk, List.mem_cons_self _ _, h2⟩
      · exact Or.inr h2

theorem mem_adjusted_scores {files : List ChangedFile} {diff : String} {p : String × Nat}
    (h : p ∈ adjusted_scores files diff) :
    p.1 ∈ (["feat", "fix", "refactor", "perf", "style", "test", "docs", "build"] : List String) := by
  have base : ∀ {q : String × Nat}, q ∈ keyword_scores diff →
      q.1 ∈ (["feat", "fix", "refactor", "perf", "style", "test", "docs", "build"] : List String) := by
    intro q hq
    rcases mem_score_entries hq with ⟨tk, htk, heq⟩ | hq'
    · rw [heq]
      have hsub : ∀ x ∈ TYPE_KEYWORDS.map Prod.fst,
          x ∈ (["feat", "fix", "refactor", "perf", "style", "test", "docs", "build"] :
            List String) := by decide
      exact hsub _ (List.mem_map_of_mem _ htk)
    · cases hq'
  simp only [adjusted_scores] at h
  by_cases hdel : (has_deletions files && !has_new_files files) = true
  · rw [if_pos hdel] at h
    rcases mem_bump h with h1 | h1
    · simp [h1]
    · by_cases hnew : has_new_files files = true
      · rw [if_pos hnew] at h1
        rcases mem_bump h1 with h2 | h2
        · simp [h2]
        · exact base h2
      · rw [if_neg hnew] at h1
        exact base h1
  · rw [if_neg hdel] at h
    by_cases hnew : has_new_files files = true
    · rw [if_pos hnew] at h
      rcases mem_bump h with h2 | h2
      · simp [h2]
      · exact base h2
    · rw [if_neg hnew] at h
      exact base h

end DiffAnalyzer

namespace DiffAnalyzer

theorem lookupD_bump (k : String) (n : Nat) (m : List (String × Nat)) (k2 : String) :
    lookupD (bump k n m) k2 = lookupD m k2 + (if k.data = k2.data then n else 0) := by
  induction m with
  | nil =>
    by_cases h : k.data = k2.data <;> simp [bump, lookupD, beq_iff_eq, h]
  | cons q rest ih =>
    obtain ⟨a, b⟩ := q
    by_cases h1 : a.data = k.data
    · by_cases h2 : a.data = k2.data
      · simp [bump, lookupD, beq_iff_eq, h1, h2, h1 ▸ h2]
      · have hk : ¬(k.data = k2.data) := fun hc => h2 (h1.trans hc)
        simp [bump, lookupD, beq_iff_eq, h1, h2, hk]
    · by_cases h2 : a.data = k2.data
      · have hk : ¬(k.data = k2.data) := fun hc => h1 (h2.trans hc.symm)
        simp [bump, lookupD, beq_iff_eq, h1, h2, hk, Ne.symm hk]
      · simp [bump, lookupD, beq_iff_eq, h1, h2, ih]

theorem lookupD_score_lines (t kw : String) (lines : List String)
    (m : List (String × Nat)) (k : String) :
    lookupD (score_lines t kw lines m) k =
      lookupD m k +
        (if t.data = k.data then lines.countP (fun l => strContains (lowerStr l) kw) else 0) := by
  induction lines generalizing m with
  | nil => simp [score_lines]
  | cons l ls ih =>
    simp only [score_lines]
    rw [ih, List.countP_cons]
    by_cases hc : strContains (lowerStr l) kw = true
    · rw [if_pos hc, lookupD_bump]
      by_cases ht : t.data = k.data <;> simp [ht, hc] <;> omega
    · rw [if_neg hc]
      have : (strContains (lowerStr l) kw = true) = False := by simp [hc]
      by_cases ht : t.data = k.data <;> simp [ht, this]

theorem lookupD_score_kws (t : String) (kws : List String) (lines : List String)
    (m : List (String × Nat)) (k : String) :
    lookupD (score_kws t kws lines m) k =
      lookupD m k + (if t.data = k.data then pair_score kws lines else 0) := by
  induction kws generalizing m with
  | nil => simp [score_kws, pair_score]
  | cons kw rest ih =>
    simp only [score_kws]
    rw [ih, lookupD_score_lines]
    have hps : pair_score (kw :: rest) lines =
        lines.countP (fun l => strContains (lowerStr l) kw) + pair_score rest lines := by
      simp [pair_score]
    by_cases ht : t.data = k.data <;> simp [ht, hps] <;> omega

theorem lookupD_score_entries (entries : List (String × List String)) (lines : List String)
    (m : List (String × Nat)) (k : String) :
    lookupD (score_entries entries lines m) k =
      lookupD m k +
        (entries.map (fun tk => if tk.1.data = k.data then pair_score tk.2 lines else 0)).sum := by
  induction entries generalizing m with
  | nil => simp [score_entries]
  | cons tk rest ih =>
    simp only [score_entries]
    rw [ih, lookupD_score_kws]
    simp
    omega

theorem score_lines_of_no_match {t kw : String} {lines : List String}
    {m : List (String × Nat)} (h : ∀ l ∈ lines, strContains (lowerStr l) kw = false) :
    score_lines t kw lines m = m := by
  induction lines with
  | nil => rfl
  | cons l ls ih =>
    have hl : strContains (lowerStr l) kw = false := h l (List.mem_cons_self _ _)
    simp only [score_lines, hl]
    exact ih (fun l' hl' => h l' (List.mem_cons_of_mem _ hl'))

theorem score_kws_of_no_match {t : String} {kws : List String} {lines : List String}
    {m : List (String × Nat)}
    (h : ∀ kw ∈ kws, ∀ l ∈ lines, strContains (lowerStr l) kw = false) :
    score_kws t kws lines m = m := by
  induction kws with
  | nil => rfl
  | cons kw rest ih =>
    simp only [score_kws]
    rw [score_lines_of_no_match (h kw (List.mem_cons_self _ _))]
    exact ih (fun kw' hkw' => h kw' (List.mem_cons_of_mem _ hkw'))

theorem score_entries_of_no_match {entries : List (String × List String)}
    {lines : List String} {m : List (String × Nat)}
    (h : ∀ tk ∈ entries, ∀ kw ∈ tk.2, ∀ l ∈ lines, strContains (lowerStr l) kw = false) :
    score_entries entries lines m = m := by
  induction entries with
  | nil => rfl
  | cons tk rest ih =>
    simp only [score_entries]
    rw [score_kws_of_no_match (h tk (List.mem_cons_self _ _))]
    exact ih (fun tk' htk' => h tk' (List.mem_cons_of_mem _ htk'))

theorem infer_type_confidence_bounds (files : List ChangedFile) (diff : String) :
    0 ≤ (infer_type files diff).2 ∧ (infer_type files diff).2 ≤ 1 := by
  unfold infer_type
  by_cases hT : only_tests files = true
  · rw [if_pos hT]
    norm_num
  · rw [if_neg hT]
    by_cases hD : only_docs files = true
    · rw [if_pos hD]
      norm_num
    · rw [if_neg hD]
      cases hm : firstMax (adjusted_scores files diff) with
      | none => norm_num
      | some ts =>
        constructor
        · exact le_min (by positivity) (by norm_num)
        · exact min_le_right _ _

theorem is_breaking_change_reason_iff (diff : String) :
    (is_breaking_change diff).2 ≠ none ↔ (is_breaking_change diff).1 = true := by
  unfold is_breaking_change
  split_ifs <;> simp

end DiffAnalyzer

namespace DiffAnalyzer

theorem charsLeadWith_iff (pre : List Char) :
    ∀ cs, charsLeadWith pre cs = true ↔ ∃ t, cs = pre ++ t := by
  induction pre with
  | nil => intro cs; simp [charsLeadWith]
  | cons a as ih =>
    intro cs
    cases cs with
    | nil =>
      simp only [charsLeadWith]
      constructor
      · intro h; cases h
      · rintro ⟨t, ht⟩; simp at ht
    | cons b bs =>
      simp only [charsLeadWith, Bool.and_eq_true, beq_iff_eq, ih bs]
      constructor
      · rintro ⟨rfl, t, rfl⟩
        exact ⟨t, rfl⟩
      · rintro ⟨t, ht⟩
        injection ht with h1 h2
        exact ⟨h1.symm, t, h2⟩

theorem charsContain_iff (needle : List Char) :
    ∀ cs, charsContain needle cs = true ↔ ∃ p s, cs = p ++ needle ++ s := by
  intro cs
  induction cs with
  | nil =>
    simp only [charsContain, List.isEmpty_iff]
    constructor
    · intro h
      exact ⟨[], [], by simp [h]⟩
    · rintro ⟨p, s, h⟩
      have h2 := (List.append_eq_nil.mp h.symm)
      exact (List.append_eq_nil.mp h2.1).2
  | cons c cs ih =>
    simp only [charsContain, Bool.or_eq_true, charsLeadWith_iff, ih]
    constructor
    · rintro (⟨t, ht⟩ | ⟨p, s, rfl⟩)
      · exact ⟨[], t, ht⟩
      · exact ⟨c :: p, s, rfl⟩
    · rintro ⟨p, s, h⟩
      cases p with
      | nil =>
        left
        exact ⟨s, h⟩
      | cons d p =>
        injection h with h1 h2
        right
        exact ⟨p, s, h2⟩

theorem strContains_iff (hay needle : String) :
    strContains hay needle = true ↔ ∃ p s, hay.data = p ++ needle.data ++ s :=
  charsContain_iff needle.data hay.data

theorem dash_then_aux_iff (kw : List Char) :
    ∀ cs, dash_then_aux kw cs = true ↔ ∃ p q r, cs = p ++ '-' :: (q ++ kw ++ r) := by
  intro cs
  induction cs with
  | nil =>
    simp only [dash_then_aux]
    constructor
    · intro h; cases h
    · rintro ⟨p, q, r, h⟩
      rcases p with _ | ⟨d, p⟩ <;> simp at h
  | cons c cs ih =>
    simp only [dash_then_aux, Bool.or_eq_true, Bool.and_eq_true, beq_iff_eq,
      charsContain_iff, ih]
    constructor
    · rintro (⟨rfl, p, s, rfl⟩ | ⟨p, q, r, rfl⟩)
      · exact ⟨[], p, s, rfl⟩
      · exact ⟨c :: p, q, r, rfl⟩
    · rintro ⟨p, q, r, h⟩
      cases p with
      | nil =>
        injection h with h1 h2
        left
        exact ⟨h1, q, r, h2⟩
      | cons d p =>
        injection h with h1 h2
        right
        exact ⟨p, q, r, h2⟩

theorem has_dash_indicator_iff (kw diff : String) :
    has_dash_indicator kw diff = true ↔ DashIndicator kw diff := by
  simp only [has_dash_indicator, List.any_eq_true, dash_then_aux_iff, DashIndicator]

theorem marker_indicator_iff (diff : String) :
    strContains (lowerStr diff) "breaking change" = true ↔ MarkerIndicator diff := by
  simp only [strContains, charsContain_iff, MarkerIndicator]

theorem infer_type_fst_mem (files : List ChangedFile) (diff : String) :
    (infer_type files diff).1 ∈
      (["feat", "fix", "refactor", "perf", "style", "test", "docs", "build", "chore"] :
        List String) := by
  unfold infer_type
  by_cases hT : only_tests files = true
  · rw [if_pos hT]
    decide
  · rw [if_neg hT]
    by_cases hD : only_docs files = true
    · rw [if_pos hD]
      decide
    · rw [if_neg hD]
      cases hm : firstMax (adjusted_scores files diff) with
      | none => decide
      | some ts =>
        have hmem := mem_adjusted_scores (firstMax_mem hm)
        simp only [List.mem_cons, List.mem_singleton, List.not_mem_nil, or_false] at hmem ⊢
        tauto

end DiffAnalyzer

/-! ### Claim theorems -/

namespace DiffAnalyzer

/-- C1 (amended): classification fails with NoChangesError exactly when the
file list is empty — the emptiness gate never consults the diff. In
particular classify([], "") raises, and classify on any non-empty file
list, empty diff included, returns a ClassificationResult. -/
theorem C1_no_changes_gate (files : List ChangedFile) (diff : String) :
    (classify files diff = Except.error ClassifyError.NoChangesError ↔ files = []) ∧
    (files ≠ [] → ∃ r, classify files diff = Except.ok r) := by
  constructor
  · constructor
    · intro h
      by_contra hne
      have hf : files.isEmpty = false := by
        cases files with
        | nil => exact absurd rfl hne
        | cons a l => rfl
      simp [classify, hf] at h
    · rintro rfl
      rfl
  · intro hne
    have hf : files.isEmpty = false := by
      cases files with
      | nil => exact absurd rfl hne
      | cons a l => rfl
    refine ⟨⟨(infer_type files diff).1, infer_scope files,
      generate_description files diff (infer_type files diff).1,
      (infer_type files diff).2, (is_breaking_change diff).1,
      (is_breaking_change diff).2⟩, ?_⟩
    simp [classify, hf]

/-- C1 witness: a concrete non-empty file list with an empty diff
classifies without error. -/
theorem C1_witness : ∃ r, classify [⟨"a.py", "M"⟩] "" = Except.ok r :=
  (C1_no_changes_gate [⟨"a.py", "M"⟩] "").2 (by decide)

/-- C1 counterexample: classify on an empty file list with a NON-empty diff
still fails with NoChangesError, so "fails exactly when both the file list
and the diff are empty" does not hold as stated. -/
theorem C1_counterexample :
    classify ([] : List ChangedFile) "x" = Except.error ClassifyError.NoChangesError ∧
    ("x" : String) ≠ "" :=
  ⟨rfl, by decide⟩

/-- C10: with an empty file list the all-test fast path of infer_type is
vacuously satisfied, so zero files are classified ("test", 0.9) for every
diff, instead of falling through to the chore default. -/
theorem C10_empty_files_test (diff : String) :
    infer_type ([] : List ChangedFile) diff = ("test", 9/10) := rfl

/-- C9: the new-function scenario: one Added file src/auth/oauth.py with an
added "def handle_oauth_callback" line classifies as feat (via the +5
Added-status boost, visible as the only entry of the adjusted score map),
scope auth (path pattern), description "add handle_oauth_callback". -/
theorem C9_new_function_scenario :
    adjusted_scores [⟨"src/auth/oauth.py", "A"⟩] "+def handle_oauth_callback(...)" =
      [("feat", 5)] ∧
    (classify [⟨"src/auth/oauth.py", "A"⟩] "+def handle_oauth_callback(...)").toOption.map
        (fun r => (r.commit_type, r.scope, r.description)) =
      some ("feat", some "auth", "add handle_oauth_callback") := by
  constructor
  · decide
  · rfl

/-- C4 (amended): breaking-change detection triggers on a '-' ANYWHERE in a
line followed later on the same line by "public ", "export " or
"@deprecated" (case-insensitively) — removed lines are not required — or on
a "BREAKING CHANGE" marker anywhere (case-insensitively); the reason string
is that of the first matching indicator in the listed order, and with no
match the result is (false, none). The removed-export scenario yields
(true, "removed exports"). -/
theorem C4_breaking_detection :
    (∀ diff : String,
      ((is_breaking_change diff).1 = true ↔
        (DashIndicator "public " diff ∨ DashIndicator "export " diff ∨
          MarkerIndicator diff ∨ DashIndicator "@deprecated" diff)) ∧
      (DashIndicator "public " diff →
        is_breaking_change diff = (true, some "removed public API")) ∧
      (¬DashIndicator "public " diff → DashIndicator "export " diff →
        is_breaking_change diff = (true, some "removed exports")) ∧
      (¬DashIndicator "public " diff → ¬DashIndicator "export " diff →
        MarkerIndicator diff →
        is_breaking_change diff = (true, some "explicitly marked")) ∧
      (¬DashIndicator "public " diff → ¬DashIndicator "export " diff →
        ¬MarkerIndicator diff → DashIndicator "@deprecated" diff →
        is_breaking_change diff = (true, some "removed deprecated feature")) ∧
      (¬DashIndicator "public " diff → ¬DashIndicator "export " diff →
        ¬MarkerIndicator diff → ¬DashIndicator "@deprecated" diff →
        is_breaking_change diff = (false, none))) ∧
    is_breaking_change "-export function login(user, pass)" =
      (true, some "removed exports") := by
  constructor
  · intro diff
    refine ⟨?_, ?_, ?_, ?_, ?_, ?_⟩ <;>
      simp only [is_breaking_change] <;>
        split_ifs with h1 h2 h3 h4 <;>
          simp_all [has_dash_indicator_iff, marker_indicator_iff]
  · rfl

/-- C4 witness: the first (removed public) indicator fires on a concrete
one-line diff. -/
theorem C4_witness :
    is_breaking_change "-public int x" = (true, some "removed public API") :=
  (C4_breaking_detection.1 "-public int x").2.1
    ⟨"-public int x", by decide, [], [], "int x".data, by decide⟩

/-- C4 counterexample: a diff whose only line is an ADDED line (no line of
the diff starts with '-') and which contains no BREAKING CHANGE marker is
still reported breaking, contradicting "only when the diff contains a
removed line (- prefix) with ... or an explicit BREAKING CHANGE marker". -/
theorem C4_counterexample :
    is_breaking_change "+added - public api" = (true, some "removed public API") ∧
    (∀ line ∈ splitNl "+added - public api", strStartsWith line "-" = false) ∧
    strContains (lowerStr "+added - public api") "breaking change" = false := by
  decide

end DiffAnalyzer

namespace DiffAnalyzer

/-- C5: whenever classify succeeds, the result's commit_type is one of the
nine commit types (chore being the no-signal default), confidence lies in
[0, 1], and breaking_reason is set iff is_breaking is true. -/
theorem C5_result_invariants (files : List ChangedFile) (diff : String)
    (r : ClassificationResult) (h : classify files diff = Except.ok r) :
    r.commit_type ∈
      (["feat", "fix", "refactor", "perf", "style", "test", "docs", "build", "chore"] :
        List String) ∧
    (0 ≤ r.confidence ∧ r.confidence ≤ 1) ∧
    (r.breaking_reason ≠ none ↔ r.is_breaking = true) := by
  by_cases hf : files.isEmpty = true
  · simp [classify, hf] at h
  · unfold classify at h
    rw [if_neg hf] at h
    injection h with h
    subst h
    exact ⟨infer_type_fst_mem files diff, infer_type_confidence_bounds files diff,
      is_breaking_change_reason_iff diff⟩

/-- C5 witness: the invariants at a concrete successful classification. -/
theorem C5_witness :
    ∃ r, classify [⟨"a.py", "M"⟩] "" = Except.ok r ∧
      (r.breaking_reason ≠ none ↔ r.is_breaking = true) :=
  ⟨_, rfl, (C5_result_invariants [⟨"a.py", "M"⟩] "" _ rfl).2.2⟩

/-- C6: for non-empty file lists: if every path contains a test indicator
the test fast path returns ("test", 0.9) regardless of the diff; otherwise
if every path ends in a documentation extension the docs fast path returns
("docs", 0.9); when both hold, the test fast path takes precedence. -/
theorem C6_fast_paths (files : List ChangedFile) (diff : String) (hne : files ≠ []) :
    ((∀ f ∈ files, strContains (lowerStr f.path) "test" = true) →
      infer_type files diff = ("test", 9/10)) ∧
    (¬(∀ f ∈ files, strContains (lowerStr f.path) "test" = true) →
      (∀ f ∈ files, (strEndsWith (lowerStr f.path) ".md" ||
        strEndsWith (lowerStr f.path) ".txt" ||
        strEndsWith (lowerStr f.path) ".rst") = true) →
      infer_type files diff = ("docs", 9/10)) ∧
    ((∀ f ∈ files, strContains (lowerStr f.path) "test" = true) →
      (∀ f ∈ files, (strEndsWith (lowerStr f.path) ".md" ||
        strEndsWith (lowerStr f.path) ".txt" ||
        strEndsWith (lowerStr f.path) ".rst") = true) →
      infer_type files diff = ("test", 9/10)) := by
  refine ⟨fun h => ?_, fun hnt hd => ?_, fun h _ => ?_⟩
  · have hT : only_tests files = true := List.all_eq_true.mpr h
    simp [infer_type, hT]
  · have hTf : only_tests files = false := by
      cases hb : only_tests files with
      | false => rfl
      | true => exact absurd (List.all_eq_true.mp hb) hnt
    have hDt : only_docs files = true := List.all_eq_true.mpr hd
    simp [infer_type, hTf, hDt]
  · have hT : only_tests files = true := List.all_eq_true.mpr h
    simp [infer_type, hT]

/-- C6 witness: the all-test scenario files = [(M, tests/test_auth.py)]
with an arbitrary diff. -/
theorem C6_witness :
    infer_type [⟨"tests/test_auth.py", "M"⟩] "arbitrary diff" = ("test", 9/10) :=
  (C6_fast_paths [⟨"tests/test_auth.py", "M"⟩] "arbitrary diff" (by decide)).1 (by decide)

/-- C7: when neither fast path applies and nothing scores — no keyword in
any added line, no Added-status file, no Deleted-status file — infer_type
returns the uncertain default ("chore", 0.3), and classify still succeeds
on such non-empty input, with exactly that type and confidence. -/
theorem C7_uninformative_default (files : List ChangedFile) (diff : String)
    (hne : files ≠ [])
    (hT : only_tests files = false) (hD : only_docs files = false)
    (hA : ∀ f ∈ files, f.status ≠ "A") (hDel : ∀ f ∈ files, f.status ≠ "D")
    (hkw : ∀ tk ∈ TYPE_KEYWORDS, ∀ kw ∈ tk.2, ∀ l ∈ added_lines diff,
      strContains (lowerStr l) kw = false) :
    infer_type files diff = ("chore", 3/10) ∧
    ∃ r, classify files diff = Except.ok r ∧
      r.commit_type = "chore" ∧ r.confidence = 3/10 := by
  have hks : keyword_scores diff = [] := score_entries_of_no_match hkw
  have hnew : has_new_files files = false := by
    cases hb : has_new_files files with
    | false => rfl
    | true =>
      obtain ⟨f, hf, hfa⟩ := List.any_eq_true.mp hb
      exact absurd (str_data_inj (by simpa using hfa)) (hA f hf)
  have hdel : has_deletions files = false := by
    cases hb : has_deletions files with
    | false => rfl
    | true =>
      obtain ⟨f, hf, hfa⟩ := List.any_eq_true.mp hb
      exact absurd (str_data_inj (by simpa using hfa)) (hDel f hf)
  have hadj : adjusted_scores files diff = [] := by
    simp [adjusted_scores, hnew, hdel, hks]
  have h1 : infer_type files diff = ("chore", 3/10) := by
    simp [infer_type, hT, hD, hadj, firstMax]
  have hf : files.isEmpty = false := by
    cases files with
    | nil => exact absurd rfl hne
    | cons a l => rfl
  refine ⟨h1, ⟨(infer_type files diff).1, infer_scope files,
    generate_description files diff (infer_type files diff).1,
    (infer_type files diff).2, (is_breaking_change diff).1,
    (is_breaking_change diff).2⟩, by simp [classify, hf], by simp [h1], by simp [h1]⟩

/-- C7 witness: the uninformative scenario, one modified file and one added
line matching no keyword. -/
theorem C7_witness :
    infer_type [⟨"src/misc.py", "M"⟩] "+zzz" = ("chore", 3/10) :=
  (C7_uninformative_default [⟨"src/misc.py", "M"⟩] "+zzz" (by decide) (by decide)
    (by decide) (by decide) (by decide) (by decide)).1

end DiffAnalyzer

namespace DiffAnalyzer

/-- C2 (amended): on the scoring path, after the status adjustments, the
returned commit type is one with the maximal adjusted score and the
confidence equals min(winning_score / 10, 1.0); a tie is broken in favour
of the FIRST entry of the score map attaining the maximum — the map lists
types in TYPE_KEYWORDS order of first keyword hit, with a boost-only feat
or refactor appended after all keyword-scored entries — not by a fixed
feat-first type-priority order. -/
theorem C2_scoring_winner (files : List ChangedFile) (diff : String)
    (hT : only_tests files = false) (hD : only_docs files = false)
    (t : String) (s : Nat)
    (hmax : firstMax (adjusted_scores files diff) = some (t, s)) :
    infer_type files diff = (t, min ((s : ℚ)/10) 1) ∧
    ∃ l1 l2, adjusted_scores files diff = l1 ++ (t, s) :: l2 ∧
      (∀ q ∈ l1, q.2 < s) ∧ (∀ q ∈ l2, q.2 ≤ s) := by
  constructor
  · simp [infer_type, hT, hD, hmax]
  · exact firstMax_spec _ _ hmax

/-- C2 witness: the winner and confidence formula at a concrete one-hit
diff. -/
theorem C2_witness :
    infer_type [⟨"a.py", "M"⟩] "+bug" = ("fix", min (((1 : Nat) : ℚ)/10) 1) :=
  (C2_scoring_winner [⟨"a.py", "M"⟩] "+bug" (by decide) (by decide) "fix" 1 (by decide)).1

/-- C2 counterexample: with one Added file and five fix-keyword hits, feat
and fix tie at the adjusted maximum 5, and fix — scored first, hence
earlier in the score map than the boost-appended feat — wins, contradicting
the claimed feat-before-fix fixed priority order. -/
theorem C2_counterexample :
    adjusted_scores [⟨"a.py", "A"⟩] "+bug error crash patch repair" =
      [("fix", 5), ("feat", 5)] ∧
    (infer_type [⟨"a.py", "A"⟩] "+bug error crash patch repair").1 = "fix" := by
  decide

/-- C8 (amended): on the scoring path each type's base score equals the
number of (keyword, added line) PAIRS such that the keyword occurs in the
lowercased line — each line counts at most once per keyword, however many
times the keyword occurs inside it — where an added line is one beginning
with '+' and not '+++'; lines not beginning with '+' contribute nothing. -/
theorem C8_base_scores (diff : String) (t : String) (kws : List String)
    (h : (t, kws) ∈ TYPE_KEYWORDS) :
    lookupD (keyword_scores diff) t = pair_score kws (added_lines diff) ∧
    (∀ l ∈ added_lines diff,
      strStartsWith l "+" = true ∧ strStartsWith l "+++" = false) := by
  constructor
  · have hks := lookupD_score_entries TYPE_KEYWORDS (added_lines diff) [] t
    rw [keyword_scores, hks]
    simp only [lookupD, Nat.zero_add]
    simp only [TYPE_KEYWORDS, List.mem_cons, List.mem_singleton, List.not_mem_nil,
      or_false, Prod.mk.injEq] at h
    rcases h with h1 | h2 | h3 | h4 | h5 | h6 | h7 | h8
    · obtain ⟨rfl, rfl⟩ := h1
      simp [TYPE_KEYWORDS]
    · obtain ⟨rfl, rfl⟩ := h2
      simp [TYPE_KEYWORDS]
    · obtain ⟨rfl, rfl⟩ := h3
      simp [TYPE_KEYWORDS]
    · obtain ⟨rfl, rfl⟩ := h4
      simp [TYPE_KEYWORDS]
    · obtain ⟨rfl, rfl⟩ := h5
      simp [TYPE_KEYWORDS]
    · obtain ⟨rfl, rfl⟩ := h6
      simp [TYPE_KEYWORDS]
    · obtain ⟨rfl, rfl⟩ := h7
      simp [TYPE_KEYWORDS]
    · obtain ⟨rfl, rfl⟩ := h8
      simp [TYPE_KEYWORDS]
  · intro l hl
    obtain ⟨-, hcond⟩ := List.mem_filter.mp hl
    rw [Bool.and_eq_true] at hcond
    exact ⟨hcond.1, by simpa using hcond.2⟩

/-- C8 witness: the pair-count characterization of fix's base score at a
concrete diff. -/
theorem C8_witness :
    lookupD (keyword_scores "+bug line") "fix" =
      pair_score ["fix", "bug", "issue", "error", "crash", "correct",
        "resolve", "patch", "repair"] (added_lines "+bug line") :=
  (C8_base_scores "+bug line" "fix" ["fix", "bug", "issue", "error", "crash", "correct",
    "resolve", "patch", "repair"] (by decide)).1

/-- C8 counterexample: in the single added line "+bug bug" the keyword
"bug" occurs twice, so the claimed occurrence count gives fix a base score
of 2, but the source bumps once per (keyword, line) pair and scores 1. -/
theorem C8_counterexample :
    ("fix", ["fix", "bug", "issue", "error", "crash", "correct",
      "resolve", "patch", "repair"]) ∈ TYPE_KEYWORDS ∧
    spec_occurrence_score ["fix", "bug", "issue", "error", "crash", "correct",
      "resolve", "patch", "repair"] "+bug bug" = 2 ∧
    lookupD (keyword_scores "+bug bug") "fix" = 1 := by
  decide

end DiffAnalyzer
